import Mathlib

/-
Shallow embedding of the migration agent in `src/agent.py` (Convex → Supabase
migration pipeline).  Strings are modelled as `List Char`; the regular
expressions of `parse_file_blocks` are modelled by direct executable matchers
whose backtracking behaviour coincides with Python's `re` on these patterns
(every greedy sub-pattern is followed by a character disjoint from the
repeated class, so maximal munch is exact, and the lazy `(.*?)` is the
shortest content followed by the closing tag).
-/

set_option maxRecDepth 20000

abbrev Chars := List Char

/-- ASCII fragment of Python's `\s` / `str.strip()` whitespace class:
space, tab, newline, carriage return, vertical tab, form feed. -/
def isPySpace (c : Char) : Bool :=
  c == ' ' || c == '\t' || c == '\n' || c == '\r' || c == '\x0b' || c == '\x0c'

/-- Boolean test that `pat` is a prefix of `s`. -/
def isPrefixB : Chars → Chars → Bool
  | [], _ => true
  | _ :: _, [] => false
  | a :: pat, b :: s => a == b && isPrefixB pat s

/-- Boolean test that `pat` occurs as a contiguous substring of `s`. -/
def containsSub (pat : Chars) : Chars → Bool
  | [] => isPrefixB pat []
  | c :: rest => isPrefixB pat (c :: rest) || containsSub pat rest

/-- Python `str.strip()` on the extracted `<FILE>` content (ASCII fragment). -/
def pyStrip (s : Chars) : Chars :=
  ((s.dropWhile isPySpace).reverse.dropWhile isPySpace).reverse

/-- Python `str.lstrip("/")`: drop every leading `/`. -/
def lstripSlash (p : Chars) : Chars :=
  p.dropWhile (fun c => c == '/')

def litFILE : Chars := "<FILE".data
def litDELETE : Chars := "<DELETE".data
def litPathQ : Chars := "path=\"".data
def litQGt : Chars := "\">".data
def litQuote : Chars := "\"".data
def litSlashGt : Chars := "/>".data
def litClose : Chars := "</FILE>".data

/-- The lazy `(.*?)` of the `<FILE>` pattern under `re.DOTALL`: the shortest
content (any characters, newlines included) followed by the literal
`</FILE>`; returns the content and the text after the closing tag, or
`none` when no closing tag follows. -/
def findClose : Chars → Option (Chars × Chars)
  | [] => none
  | c :: rest =>
    if isPrefixB litClose (c :: rest) then some ([], (c :: rest).drop litClose.length)
    else
      match findClose rest with
      | some (con, r) => some (c :: con, r)
      | none => none

/-- Attempt to match `<FILE\s+path="([^"]+)">(.*?)</FILE>` (DOTALL) at the
start of `s`; on success returns (raw path group, raw content group, rest of
the text after the match). -/
def matchFile (s : Chars) : Option (Chars × Chars × Chars) :=
  if isPrefixB litFILE s then
    let s1 := s.drop litFILE.length
    let sp := s1.takeWhile isPySpace
    let s2 := s1.dropWhile isPySpace
    if sp.isEmpty then none
    else if isPrefixB litPathQ s2 then
      let s3 := s2.drop litPathQ.length
      let p := s3.takeWhile (fun c => !(c == '"'))
      let s4 := s3.dropWhile (fun c => !(c == '"'))
      if p.isEmpty then none
      else if isPrefixB litQGt s4 then
        match findClose (s4.drop litQGt.length) with
        | some (con, r) => some (p, con, r)
        | none => none
      else none
    else none
  else none

/-- Attempt to match `<DELETE\s+path="([^"]+)"\s*/>` at the start of `s`;
on success returns (raw path group, rest of the text after the match). -/
def matchDelete (s : Chars) : Option (Chars × Chars) :=
  if isPrefixB litDELETE s then
    let s1 := s.drop litDELETE.length
    let sp := s1.takeWhile isPySpace
    let s2 := s1.dropWhile isPySpace
    if sp.isEmpty then none
    else if isPrefixB litPathQ s2 then
      let s3 := s2.drop litPathQ.length
      let p := s3.takeWhile (fun c => !(c == '"'))
      let s4 := s3.dropWhile (fun c => !(c == '"'))
      if p.isEmpty then none
      else if isPrefixB litQuote s4 then
        let s5 := (s4.drop litQuote.length).dropWhile isPySpace
        if isPrefixB litSlashGt s5 then some (p, s5.drop litSlashGt.length)
        else none
      else none
    else none
  else none

/-- Fuelled scan of `re.finditer` for the `<FILE>` pattern: try to match at
every position, left to right; after a match resume immediately after it
(matches are non-overlapping).  The fuel only bounds the number of scanning
steps; `s.length` steps always suffice since every step strictly shortens
the text. -/
def findAllFileF : Nat → Chars → List (Chars × Chars)
  | 0, _ => []
  | _ + 1, [] => []
  | fuel + 1, c :: rest =>
    match matchFile (c :: rest) with
    | some (p, con, r) => (p, con) :: findAllFileF fuel r
    | none => findAllFileF fuel rest

/-- Fuelled scan of `re.finditer` for the `<DELETE>` pattern. -/
def findAllDeleteF : Nat → Chars → List Chars
  | 0, _ => []
  | _ + 1, [] => []
  | fuel + 1, c :: rest =>
    match matchDelete (c :: rest) with
    | some (p, r) => p :: findAllDeleteF fuel r
    | none => findAllDeleteF fuel rest

/-- All `<FILE ...>...</FILE>` matches of the response, in document order. -/
def findAllFile (s : Chars) : List (Chars × Chars) := findAllFileF s.length s

/-- All `<DELETE ... />` matches of the response, in document order. -/
def findAllDelete (s : Chars) : List Chars := findAllDeleteF s.length s

/-- The `action` field of a parsed change: `"write"` or `"delete"`. -/
inductive ActionT
  | write
  | delete
  deriving DecidableEq, Repr

/-- One parsed file operation, mirroring the dict
`{"action": ..., "path": ..., "content": ...}` built by `parse_file_blocks`. -/
structure Change where
  action : ActionT
  path : Chars
  content : Chars
  deriving DecidableEq, Repr

/-- Embedding of `parse_file_blocks` (src/agent.py, lines 158-180): every
`<FILE>` match becomes a write change (path lstripped of `/`, content
stripped), then every `<DELETE>` match becomes a delete change (path
lstripped of `/`, empty content); writes are appended before deletes. -/
def parse_file_blocks (response : Chars) : List Change :=
  ((findAllFile response).map fun pc =>
    { action := ActionT.write, path := lstripSlash pc.1, content := pyStrip pc.2 })
  ++ ((findAllDelete response).map fun p =>
    { action := ActionT.delete, path := lstripSlash p, content := [] })

/-
Path-resolution side of claim C1.  `escapesRoot` formalises the claim's
notion "the path traverses outside the target root when resolved against
it": resolving the `/`-separated segments against the root, a `..` segment
pops one directory and escapes the root when the current depth is zero;
`.` and empty segments are neutral.
-/

/-- Split a relative path on `/` (auxiliary, carries the reversed current
segment). -/
def splitSlashAux : Chars → Chars → List Chars
  | [], acc => [acc.reverse]
  | c :: rest, acc =>
    if c == '/' then acc.reverse :: splitSlashAux rest []
    else splitSlashAux rest (c :: acc)

/-- Split a path string on `/` into its segments. -/
def splitSlash (p : Chars) : List Chars := splitSlashAux p []

/-- Resolve segments against a root at depth `d`; `true` when some `..`
segment climbs above the root. -/
def escapesRootAux : List Chars → Nat → Bool
  | [], _ => false
  | seg :: rest, d =>
    if seg == [] || seg == ".".data then escapesRootAux rest d
    else if seg == "..".data then
      (if d == 0 then true else escapesRootAux rest (d - 1))
    else escapesRootAux rest (d + 1)

/-- A path escapes the target root when its resolution climbs above it. -/
def escapesRoot (p : Chars) : Bool := escapesRootAux (splitSlash p) 0

/-
Embedding of `step_apply_changes` (src/agent.py, lines 308-350).  The target
tree is a map from relative-path strings to file contents; `shutil.copy2` /
`write_text` / `unlink` become pointwise updates of that map.
-/

/-- The target file tree: relative path → file content. -/
abbrev Fs := Chars → Option Chars

/-- The empty target tree. -/
def fsEmpty : Fs := fun _ => none

/-- Write (create or overwrite) the file at `p`. -/
def fsSet (fs : Fs) (p v : Chars) : Fs :=
  fun q => if q = p then some v else fs q

/-- Remove the file at `p` (`Path.unlink`). -/
def fsErase (fs : Fs) (p : Chars) : Fs :=
  fun q => if q = p then none else fs q

/-- The `stats` dictionary `{"copied", "written", "deleted", "skipped"}`. -/
structure RunStats where
  copied : Nat
  written : Nat
  deleted : Nat
  skipped : Nat
  deriving DecidableEq, Repr

/-- Initial stats, all counters zero. -/
def statsZero : RunStats := ⟨0, 0, 0, 0⟩

/-- First segment of a relative path, mirroring `rel.parts[0]`. -/
def firstSeg (p : Chars) : Chars := p.takeWhile (fun c => !(c == '/'))

/-- One iteration of the copy loop (lines 325-333): skip when the first path
segment is `convex`, otherwise copy the file and bump `copied`. -/
def copyStep (st : Fs × RunStats) (f : Chars × Chars) : Fs × RunStats :=
  if firstSeg f.1 = "convex".data then st
  else (fsSet st.1 f.1 f.2, { st.2 with copied := st.2.copied + 1 })

/-- One iteration of the apply loop (lines 337-348): a write creates or
overwrites the file and bumps `written`; a delete removes an existing file
and bumps `deleted`, or bumps `skipped` when the file is absent. -/
def applyOne (st : Fs × RunStats) (c : Change) : Fs × RunStats :=
  match c.action with
  | ActionT.write =>
    (fsSet st.1 c.path c.content, { st.2 with written := st.2.written + 1 })
  | ActionT.delete =>
    if (st.1 c.path).isSome then
      (fsErase st.1 c.path, { st.2 with deleted := st.2.deleted + 1 })
    else (st.1, { st.2 with skipped := st.2.skipped + 1 })

/-- Embedding of `step_apply_changes`: `sourceFiles` is the
`iter_source_files` enumeration (relative path, content) in its order,
`target` the initial target tree.  Dry-run only counts the write and delete
operations of the plan; live mode copies the sources (excluding the
`convex/` subtree) and then applies the changes in sequence. -/
def step_apply_changes (sourceFiles : List (Chars × Chars)) (target : Fs)
    (allChanges : List Change) (dryRun : Bool) : Fs × RunStats :=
  if dryRun then
    (target,
      { statsZero with
        written := (allChanges.filter fun c => c.action == ActionT.write).length
        deleted := (allChanges.filter fun c => c.action == ActionT.delete).length })
  else
    let afterCopy := sourceFiles.foldl copyStep (target, statsZero)
    allChanges.foldl applyOne afterCopy

/-
Embedding of `call_cursor_api` (src/agent.py, lines 89-128).  A run is
abstracted by the outcome of each attempted request (`outcomes i` is what
the i-th `requests.post` would produce); the function returns how the call
ends together with the list of `time.sleep` durations, in order.
-/

/-- Outcome of one HTTP request to the completion endpoint. -/
inductive Outcome
  | success (text : String)
  | httpError (status : Nat)
  | timeout
  deriving DecidableEq, Repr

/-- How `call_cursor_api` ends: a returned string, the `RuntimeError`
raised after the final non-429 HTTP error (wrapping the `HTTPError` cause),
or the bare `requests.exceptions.Timeout` re-raised on the final timeout. -/
inductive ApiResult
  | ok (text : String)
  | serviceError (status : Nat)
  | timeoutError
  deriving DecidableEq, Repr

/-- The `for attempt in range(retries)` loop; `rem` is the number of
attempts left, so the current attempt index is `retries - rem`.  Falling
out of the loop returns `""` (line 128). -/
def callAux (outcomes : Nat → Outcome) (retries : Nat) : Nat → List Nat → ApiResult × List Nat
  | 0, sleeps => (ApiResult.ok "", sleeps)
  | rem + 1, sleeps =>
    let attempt := retries - (rem + 1)
    match outcomes attempt with
    | Outcome.success t => (ApiResult.ok t, sleeps)
    | Outcome.httpError status =>
      if status = 429 then callAux outcomes retries rem (sleeps ++ [10 * (attempt + 1)])
      else if attempt < retries - 1 then callAux outcomes retries rem (sleeps ++ [3])
      else (ApiResult.serviceError status, sleeps)
    | Outcome.timeout =>
      if attempt < retries - 1 then callAux outcomes retries rem (sleeps ++ [5])
      else (ApiResult.timeoutError, sleeps)

/-- Embedding of `call_cursor_api` for a given trace of request outcomes. -/
def call_cursor_api (outcomes : Nat → Outcome) (retries : Nat) : ApiResult × List Nat :=
  callAux outcomes retries retries []

/-- The default retry budget (`retries: int = 3`). -/
def defaultRetries : Nat := 3

/-- An attempt outcome that is a failure (HTTP error or timeout). -/
def isFail : Outcome → Bool
  | Outcome.success _ => false
  | Outcome.httpError _ => true
  | Outcome.timeout => true

/-- Result of the loop as decided by its final attempt, given that every
attempt failed: a final 429 sleeps and falls out of the loop returning
`""`; a final non-429 HTTP error raises the wrapping `RuntimeError`; a
final timeout re-raises the bare timeout. -/
def finalResult : Outcome → ApiResult
  | Outcome.success t => ApiResult.ok t
  | Outcome.httpError status =>
    if status = 429 then ApiResult.ok "" else ApiResult.serviceError status
  | Outcome.timeout => ApiResult.timeoutError

/-- Trace in which every request is rejected with HTTP 429. -/
def always429 : Nat → Outcome := fun _ => Outcome.httpError 429

/-- Trace of the C3 scenario: HTTP 429 on the first three requests,
success afterwards. -/
def rlThenOk : Nat → Outcome := fun i =>
  if i < 3 then Outcome.httpError 429 else Outcome.success "done"

/-
Helper lemmas.
-/

theorem matchFile_eq_none {s : Chars} (h : isPrefixB litFILE s = false) :
    matchFile s = none := by
  simp [matchFile, h]

theorem matchDelete_eq_none {s : Chars} (h : isPrefixB litDELETE s = false) :
    matchDelete s = none := by
  simp [matchDelete, h]

theorem findAllFileF_eq_nil :
    ∀ (fuel : Nat) (s : Chars), containsSub litFILE s = false → findAllFileF fuel s = []
  | 0, _, _ => rfl
  | _ + 1, [], _ => rfl
  | fuel + 1, c :: rest, h => by
    have h' : (isPrefixB litFILE (c :: rest) || containsSub litFILE rest) = false := h
    rw [Bool.or_eq_false_iff] at h'
    have hm := matchFile_eq_none h'.1
    simp only [findAllFileF, hm]
    exact findAllFileF_eq_nil fuel rest h'.2

theorem findAllDeleteF_eq_nil :
    ∀ (fuel : Nat) (s : Chars), containsSub litDELETE s = false → findAllDeleteF fuel s = []
  | 0, _, _ => rfl
  | _ + 1, [], _ => rfl
  | fuel + 1, c :: rest, h => by
    have h' : (isPrefixB litDELETE (c :: rest) || containsSub litDELETE rest) = false := h
    rw [Bool.or_eq_false_iff] at h'
    have hm := matchDelete_eq_none h'.1
    simp only [findAllDeleteF, hm]
    exact findAllDeleteF_eq_nil fuel rest h'.2

theorem head?_dropWhile_bool (p : Char → Bool) :
    ∀ (l : Chars) (c : Char), ((l.dropWhile p).head? = some c) → p c = false
  | [], c, h => by simp [List.dropWhile] at h
  | a :: l, c, h => by
    by_cases ha : p a
    · rw [List.dropWhile_cons_of_pos ha] at h
      exact head?_dropWhile_bool p l c h
    · rw [List.dropWhile_cons_of_neg ha] at h
      simp only [List.head?_cons, Option.some.injEq] at h
      subst h
      exact Bool.not_eq_true _ ▸ ha

/-
Claim C4 — `parse_file_blocks` is total (the embedding is an everywhere-
defined function) and an input with no recognized marker yields no
operations.
-/

/-- Claim C4: on any input that contains neither the `<FILE` write-marker
opener nor the `<DELETE` delete-marker opener as a substring,
`parse_file_blocks` returns the empty sequence; totality (never raising) is
intrinsic to the embedding, which is an everywhere-defined function. -/
theorem parse_no_markers_returns_empty (s : Chars)
    (h1 : containsSub litFILE s = false) (h2 : containsSub litDELETE s = false) :
    parse_file_blocks s = [] := by
  unfold parse_file_blocks findAllFile findAllDelete
  rw [findAllFileF_eq_nil _ _ h1, findAllDeleteF_eq_nil _ _ h2]
  rfl

/-- Witness for C4 at the concrete marker-free input `"hello world"`. -/
theorem parse_no_markers_returns_empty_witness :
    parse_file_blocks "hello world".data = [] :=
  parse_no_markers_returns_empty "hello world".data (by decide) (by decide)

/-
Claim C8 — writes first, then deletes, never interleaved.
-/

/-- Claim C8: the parse result equals its write operations (in the order the
`<FILE>` scan finds them, i.e. document order) followed by its delete
operations (in the order the `<DELETE>` scan finds them); the two kinds are
never interleaved. -/
theorem parse_writes_precede_deletes (s : Chars) :
    parse_file_blocks s
      = (parse_file_blocks s).filter (fun c => c.action == ActionT.write)
        ++ (parse_file_blocks s).filter (fun c => c.action == ActionT.delete) := by
  unfold parse_file_blocks
  rw [List.filter_append, List.filter_append]
  have hww : ∀ (l : List (Chars × Chars)),
      ((l.map fun pc =>
        ({ action := ActionT.write, path := lstripSlash pc.1,
           content := pyStrip pc.2 } : Change)).filter
        (fun c => c.action == ActionT.write))
      = l.map fun pc =>
        ({ action := ActionT.write, path := lstripSlash pc.1,
           content := pyStrip pc.2 } : Change) := by
    intro l
    refine List.filter_eq_self.mpr ?_
    intro a ha
    rcases List.mem_map.mp ha with ⟨x, _, rfl⟩
    rfl
  have hwd : ∀ (l : List (Chars × Chars)),
      ((l.map fun pc =>
        ({ action := ActionT.write, path := lstripSlash pc.1,
           content := pyStrip pc.2 } : Change)).filter
        (fun c => c.action == ActionT.delete)) = [] := by
    intro l
    refine List.filter_eq_nil_iff.mpr ?_
    intro a ha
    rcases List.mem_map.mp ha with ⟨x, _, rfl⟩
    simp
  have hdw : ∀ (l : List Chars),
      ((l.map fun p =>
        ({ action := ActionT.delete, path := lstripSlash p,
           content := [] } : Change)).filter
        (fun c => c.action == ActionT.write)) = [] := by
    intro l
    refine List.filter_eq_nil_iff.mpr ?_
    intro a ha
    rcases List.mem_map.mp ha with ⟨x, _, rfl⟩
    simp
  have hdd : ∀ (l : List Chars),
      ((l.map fun p =>
        ({ action := ActionT.delete, path := lstripSlash p,
           content := [] } : Change)).filter
        (fun c => c.action == ActionT.delete))
      = l.map fun p =>
        ({ action := ActionT.delete, path := lstripSlash p,
           content := [] } : Change) := by
    intro l
    refine List.filter_eq_self.mpr ?_
    intro a ha
    rcases List.mem_map.mp ha with ⟨x, _, rfl⟩
    rfl
  rw [hww, hwd, hdw, hdd]
  simp

/-
Claim C9 — concrete round trips.
-/

/-- Claim C9: `<FILE path="a/b.txt">hello</FILE>` parses to exactly one
write with path `a/b.txt` and stripped content `hello`, and
`<DELETE path="/x/y" />` parses to exactly one delete with the leading
separator stripped from the path. -/
theorem parse_round_trip_examples :
    parse_file_blocks "<FILE path=\"a/b.txt\">hello</FILE>".data
        = [⟨ActionT.write, "a/b.txt".data, "hello".data⟩]
      ∧ parse_file_blocks "<DELETE path=\"/x/y\" />".data
        = [⟨ActionT.delete, "x/y".data, []⟩] := by
  decide

/-
Claim C10 — a delete-marker inside a write block is extracted as its own
operation, while the write's content keeps the marker text verbatim.
-/

/-- Claim C10: when a self-closing delete-marker for `b` sits between the
opening and closing write-markers for `a`, the parse yields both the write
for `a` (whose content still contains the full delete-marker text) and the
delete for `b`. -/
theorem parse_embedded_delete_extracted :
    parse_file_blocks "<FILE path=\"a\">x <DELETE path=\"b\" /> y</FILE>".data
        = [⟨ActionT.write, "a".data, "x <DELETE path=\"b\" /> y".data⟩,
           ⟨ActionT.delete, "b".data, []⟩]
      ∧ containsSub "<DELETE path=\"b\" />".data "x <DELETE path=\"b\" /> y".data = true := by
  decide

/-
Claim C1 — produced paths have no leading separator, but nothing prevents
`..` traversal outside the target root.
-/

/-- Counterexample to C1: the parse of `<DELETE path="../x" />` produces the
path `../x`, whose resolution against the target root climbs outside it, so
the "no traversal outside the target root" half of the claim is false. -/
theorem parse_path_can_escape_root :
    parse_file_blocks "<DELETE path=\"../x\" />".data
        = [⟨ActionT.delete, "../x".data, []⟩]
      ∧ escapesRoot "../x".data = true := by
  decide

/-- Claim C1 as amended: every operation produced by `parse_file_blocks`
has a path with no leading separator (all leading `/` are stripped);
traversal outside the target root via `..` segments is not prevented. -/
theorem parse_paths_no_leading_separator (s : Chars) (c : Change)
    (hc : c ∈ parse_file_blocks s) : c.path.head? ≠ some '/' := by
  intro hh
  unfold parse_file_blocks at hc
  rcases List.mem_append.mp hc with h | h
  · rcases List.mem_map.mp h with ⟨x, _, rfl⟩
    simp only [lstripSlash] at hh
    have hfalse := head?_dropWhile_bool _ x.1 '/' hh
    simp at hfalse
  · rcases List.mem_map.mp h with ⟨x, _, rfl⟩
    simp only [lstripSlash] at hh
    have hfalse := head?_dropWhile_bool _ x '/' hh
    simp at hfalse

/-- Witness for the amended C1: the operation parsed from
`<FILE path="//a">x</FILE>` (raw path `//a`) has no leading separator. -/
theorem parse_paths_no_leading_separator_witness :
    (⟨ActionT.write, "a".data, "x".data⟩ : Change).path.head? ≠ some '/' :=
  parse_paths_no_leading_separator "<FILE path=\"//a\">x</FILE>".data _ (by decide)

/-
Claims C2 and C3 — behaviour of `call_cursor_api` on all-failure traces and
on the three-429s-then-success trace.
-/

theorem callAux_all_failures (outcomes : Nat → Outcome) (retries : Nat) :
    ∀ (rem : Nat) (sleeps : List Nat), 0 < rem → rem ≤ retries →
      (∀ i, retries - rem ≤ i → i < retries → isFail (outcomes i) = true) →
      (callAux outcomes retries rem sleeps).1 = finalResult (outcomes (retries - 1)) := by
  intro rem
  induction rem with
  | zero => intro sleeps h0; exact absurd h0 (by omega)
  | succ r ih =>
    intro sleeps _ hle hfail
    have hattempt : retries - (r + 1) < retries := by omega
    have hfa := hfail (retries - (r + 1)) (by omega) hattempt
    simp only [callAux]
    cases ho : outcomes (retries - (r + 1)) with
    | success t => rw [ho] at hfa; simp [isFail] at hfa
    | httpError status =>
      dsimp only
      by_cases h429 : status = 429
      · subst h429
        rw [if_pos rfl]
        cases r with
        | zero =>
          have heq : retries - 1 = retries - (0 + 1) := rfl
          rw [heq, ho]
          simp [callAux, finalResult]
        | succ r' =>
          exact ih _ (by omega) (by omega) (fun i hi1 hi2 => hfail i (by omega) hi2)
      · rw [if_neg h429]
        by_cases hlt : retries - (r + 1) < retries - 1
        · have hr : 0 < r := by omega
          rw [if_pos hlt]
          exact ih _ hr (by omega) (fun i hi1 hi2 => hfail i (by omega) hi2)
        · rw [if_neg hlt]
          have heq : retries - (r + 1) = retries - 1 := by omega
          rw [← heq, ho]
          simp [finalResult, h429]
    | timeout =>
      dsimp only
      by_cases hlt : retries - (r + 1) < retries - 1
      · have hr : 0 < r := by omega
        rw [if_pos hlt]
        exact ih _ hr (by omega) (fun i hi1 hi2 => hfail i (by omega) hi2)
      · rw [if_neg hlt]
        have heq : retries - (r + 1) = retries - 1 := by omega
        rw [← heq, ho]
        simp [finalResult]

/-- Counterexample to C2: on the all-failure trace in which every request is
rejected with HTTP 429, `call_cursor_api` with the default budget does not
raise at all — it performs the three backoff sleeps and then returns the
empty string (the `return ""` after the loop), so an all-failure run can
return a value instead of raising a `ServiceError`. -/
theorem all_failures_can_return_value :
    call_cursor_api always429 defaultRetries = (ApiResult.ok "", [10, 20, 30])
      ∧ isFail (always429 0) = true := by
  decide

/-- Claim C2 as amended: a run in which every attempt fails always
terminates, and how it ends is decided by the final attempt's failure: a
non-429 HTTP error raises the `RuntimeError` wrapping the cause
(`ServiceError`), a timeout re-raises the bare `Timeout` (not wrapped), and
an HTTP 429 on the final attempt makes the loop fall through and return the
empty string instead of raising. -/
theorem complete_exhausted_final_outcome (outcomes : Nat → Outcome) (retries : Nat)
    (hpos : 0 < retries)
    (hfail : ∀ i, i < retries → isFail (outcomes i) = true) :
    (call_cursor_api outcomes retries).1 = finalResult (outcomes (retries - 1)) := by
  unfold call_cursor_api
  exact callAux_all_failures outcomes retries retries [] hpos (le_refl retries)
    (fun i _ h2 => hfail i h2)

/-- Witness for the amended C2 on the all-timeout trace with the default
budget: the call ends with the re-raised timeout. -/
theorem complete_exhausted_final_outcome_witness :
    (call_cursor_api (fun _ => Outcome.timeout) defaultRetries).1
      = finalResult Outcome.timeout :=
  complete_exhausted_final_outcome (fun _ => Outcome.timeout) defaultRetries
    (by decide) (fun i _ => rfl)

/-- Counterexample to C3: on the trace with HTTP 429 on the first three
requests and success (text `"done"`) afterwards, `call_cursor_api` with its
default budget of 3 does not return the successful completion text — the
three 429s consume the whole attempt budget, so the fourth request is never
issued (`rlThenOk 3` would have succeeded). -/
theorem three_rate_limits_success_text_not_returned :
    (call_cursor_api rlThenOk defaultRetries).1 ≠ ApiResult.ok "done"
      ∧ rlThenOk 3 = Outcome.success "done" := by
  decide

/-- Claim C3 as amended: with the default budget of 3, three consecutive
429 responses do produce exactly the three backoff sleeps of strictly
increasing duration 10 s, 20 s, 30 s, but the call then returns the empty
string without a fourth request; the successful completion text is returned
(after the same three sleeps) only with a retry budget of at least 4. -/
theorem three_rate_limits_default_budget_behavior :
    call_cursor_api rlThenOk defaultRetries = (ApiResult.ok "", [10, 20, 30])
      ∧ call_cursor_api rlThenOk (defaultRetries + 1) = (ApiResult.ok "done", [10, 20, 30]) := by
  decide

/-
Claims C5, C6, C7 — `step_apply_changes`.
-/

/-- A concrete plan with 4 write operations and 2 delete operations. -/
def plan42 : List Change :=
  [⟨ActionT.write, "w1".data, []⟩, ⟨ActionT.write, "w2".data, []⟩,
   ⟨ActionT.write, "w3".data, []⟩, ⟨ActionT.write, "w4".data, []⟩,
   ⟨ActionT.delete, "d1".data, []⟩, ⟨ActionT.delete, "d2".data, []⟩]

/-- Claim C7: dry-run mode leaves the target tree untouched and returns
stats counting exactly the write and delete operations of the plan, with
`copied = 0` and `skipped = 0`; the stats do not depend on the source
enumeration or on the target state, so a second dry-run of the same plan
yields identical stats; on a plan of 4 writes and 2 deletes the stats are
`written = 4`, `deleted = 2`, `copied = 0`. -/
theorem dry_run_counts_without_mutation :
    (∀ (sourceFiles : List (Chars × Chars)) (target : Fs) (allChanges : List Change),
      step_apply_changes sourceFiles target allChanges true
        = (target,
           { copied := 0
             written := (allChanges.filter fun c => c.action == ActionT.write).length
             deleted := (allChanges.filter fun c => c.action == ActionT.delete).length
             skipped := 0 }))
    ∧ (∀ (s1 s2 : List (Chars × Chars)) (t1 t2 : Fs) (allChanges : List Change),
      (step_apply_changes s1 t1 allChanges true).2
        = (step_apply_changes s2 t2 allChanges true).2)
    ∧ (step_apply_changes [] fsEmpty plan42 true).2 = ⟨0, 4, 2, 0⟩ := by
  refine ⟨?_, ?_, ?_⟩
  · intro sourceFiles target allChanges
    rfl
  · intro s1 s2 t1 t2 allChanges
    rfl
  · rfl

/-- Claim C5: operations are applied strictly in sequence — after a live
apply of `[Write(p, v1), Write(p, v2)]` the target holds `v2` at `p` —
and a delete removes the file at its path when present (bumping the
`deleted` counter) or leaves the tree unchanged and bumps `skipped` when
the file is absent. -/
theorem apply_sequential_overwrite_and_delete :
    (∀ (sourceFiles : List (Chars × Chars)) (target : Fs) (p v1 v2 : Chars),
      ((step_apply_changes sourceFiles target
        [⟨ActionT.write, p, v1⟩, ⟨ActionT.write, p, v2⟩] false).1) p = some v2)
    ∧ (∀ (fs : Fs) (st : RunStats) (p con : Chars),
        (fs p).isSome = true →
          (applyOne (fs, st) ⟨ActionT.delete, p, con⟩).1 p = none
          ∧ (applyOne (fs, st) ⟨ActionT.delete, p, con⟩).2
              = { st with deleted := st.deleted + 1 })
    ∧ (∀ (fs : Fs) (st : RunStats) (p con : Chars),
        fs p = none →
          applyOne (fs, st) ⟨ActionT.delete, p, con⟩
            = (fs, { st with skipped := st.skipped + 1 })) := by
  refine ⟨?_, ?_, ?_⟩
  · intro sourceFiles target p v1 v2
    simp [step_apply_changes, applyOne, fsSet]
  · intro fs st p con h
    constructor
    · simp [applyOne, h, fsErase]
    · simp [applyOne, h]
  · intro fs st p con h
    simp [applyOne, h]

/-- Witness for C5: the overwrite at path `p`, the delete of the present
file `f`, and the skipped delete of the absent file `g`, all at concrete
inputs. -/
theorem apply_sequential_overwrite_and_delete_witness :
    ((step_apply_changes [] fsEmpty
        [⟨ActionT.write, "p".data, "v1".data⟩, ⟨ActionT.write, "p".data, "v2".data⟩]
        false).1) "p".data = some "v2".data
    ∧ ((applyOne (fsSet fsEmpty "f".data "c".data, statsZero)
          ⟨ActionT.delete, "f".data, []⟩).1 "f".data = none
       ∧ (applyOne (fsSet fsEmpty "f".data "c".data, statsZero)
          ⟨ActionT.delete, "f".data, []⟩).2 = ⟨0, 0, 1, 0⟩)
    ∧ applyOne (fsEmpty, statsZero) ⟨ActionT.delete, "g".data, []⟩
        = (fsEmpty, ⟨0, 0, 0, 1⟩) :=
  ⟨apply_sequential_overwrite_and_delete.1 [] fsEmpty "p".data "v1".data "v2".data,
   apply_sequential_overwrite_and_delete.2.1 (fsSet fsEmpty "f".data "c".data)
     statsZero "f".data [] (by decide),
   apply_sequential_overwrite_and_delete.2.2 fsEmpty statsZero "g".data [] rfl⟩

theorem copyFold_convex_untouched (p : Chars) (hp : firstSeg p = "convex".data) :
    ∀ (src : List (Chars × Chars)) (acc : Fs × RunStats),
      (src.foldl copyStep acc).1 p = acc.1 p := by
  intro src
  induction src with
  | nil => intro acc; rfl
  | cons f rest ih =>
    intro acc
    rw [List.foldl_cons]
    by_cases hf : firstSeg f.1 = "convex".data
    · rw [ih]
      simp only [copyStep, if_pos hf]
    · rw [ih]
      simp only [copyStep, if_neg hf]
      simp only [fsSet]
      rw [if_neg]
      intro he
      exact hf (he ▸ hp)

theorem copyFold_preserves_isSome (q : Chars) :
    ∀ (src : List (Chars × Chars)) (acc : Fs × RunStats),
      (acc.1 q).isSome = true → ((src.foldl copyStep acc).1 q).isSome = true := by
  intro src
  induction src with
  | nil => intro acc h; exact h
  | cons f rest ih =>
    intro acc h
    rw [List.foldl_cons]
    apply ih
    by_cases hf : firstSeg f.1 = "convex".data
    · simp only [copyStep, if_pos hf]; exact h
    · simp only [copyStep, if_neg hf, fsSet]
      by_cases hq : q = f.1
      · rw [if_pos hq]; rfl
      · rw [if_neg hq]; exact h

theorem copyFold_copies_file (q v : Chars) (hq : firstSeg q ≠ "convex".data) :
    ∀ (src : List (Chars × Chars)) (acc : Fs × RunStats),
      (q, v) ∈ src → ((src.foldl copyStep acc).1 q).isSome = true := by
  intro src
  induction src with
  | nil => intro acc h; exact absurd h (List.not_mem_nil _)
  | cons f rest ih =>
    intro acc hmem
    rw [List.foldl_cons]
    rcases List.mem_cons.mp hmem with heq | hrest
    · apply copyFold_preserves_isSome
      have hf1 : f.1 = q := by rw [← heq]
      unfold copyStep
      rw [hf1, if_neg hq]
      simp [fsSet]
    · exact ih _ hrest

theorem applyFold_preserves_none (p : Chars) :
    ∀ (changes : List Change) (acc : Fs × RunStats),
      acc.1 p = none →
      (∀ c ∈ changes, c.action = ActionT.write → c.path ≠ p) →
      (changes.foldl applyOne acc).1 p = none := by
  intro changes
  induction changes with
  | nil => intro acc h _; exact h
  | cons c rest ih =>
    intro acc h hw
    rw [List.foldl_cons]
    have hrest : ∀ d ∈ rest, d.action = ActionT.write → d.path ≠ p :=
      fun d hd => hw d (List.mem_cons_of_mem _ hd)
    refine ih _ ?_ hrest
    cases hact : c.action with
    | write =>
      have hcp : c.path ≠ p := hw c (List.mem_cons_self _ _) hact
      simp only [applyOne, hact, fsSet]
      rw [if_neg (fun he => hcp he.symm)]
      exact h
    | delete =>
      by_cases hs : (acc.1 c.path).isSome
      · simp only [applyOne, hact, if_pos hs, fsErase]
        by_cases hpc : p = c.path
        · rw [if_pos hpc]
        · rw [if_neg hpc]; exact h
      · simp only [applyOne, hact, if_neg hs]
        exact h

/-- Claim C6: the live copy step copies every enumerated source file whose
first path segment is not `convex` into the target, never copies a path
whose first segment is `convex`, and consequently — starting from an empty
target and a plan with no write targeting that path — a file under the
`convex/` subtree is absent from the target after the whole apply, even
though no delete operation references it. -/
theorem copy_excludes_convex_subtree :
    (∀ (q v : Chars), firstSeg q ≠ "convex".data →
      ∀ (src : List (Chars × Chars)) (acc : Fs × RunStats),
        (q, v) ∈ src → ((src.foldl copyStep acc).1 q).isSome = true)
    ∧ (∀ (p : Chars), firstSeg p = "convex".data →
      ∀ (src : List (Chars × Chars)) (acc : Fs × RunStats),
        (src.foldl copyStep acc).1 p = acc.1 p)
    ∧ (∀ (src : List (Chars × Chars)) (changes : List Change) (p : Chars),
       firstSeg p = "convex".data →
       (∀ c ∈ changes, c.action = ActionT.write → c.path ≠ p) →
       (step_apply_changes src fsEmpty changes false).1 p = none) := by
  refine ⟨copyFold_copies_file, copyFold_convex_untouched, ?_⟩
  intro src changes p hp hw
  show (changes.foldl applyOne (src.foldl copyStep (fsEmpty, statsZero))).1 p = none
  refine applyFold_preserves_none p changes _ ?_ hw
  rw [copyFold_convex_untouched p hp]
  rfl

/-- Witness for C6: a non-convex file is copied, a convex-rooted path is
left untouched by the copy fold, and `convex/a` is absent after a live
apply from an empty target with a plan writing only `b`. -/
theorem copy_excludes_convex_subtree_witness :
    (([("app/a".data, "x".data)].foldl copyStep ((fsEmpty, statsZero) : Fs × RunStats)).1
        "app/a".data).isSome = true
    ∧ ([("convex/a".data, "x".data)].foldl copyStep
        ((fsEmpty, statsZero) : Fs × RunStats)).1 "convex/a".data
      = (fsEmpty, statsZero).1 "convex/a".data
    ∧ (step_apply_changes [("convex/a".data, "x".data)] fsEmpty
        [⟨ActionT.write, "b".data, "y".data⟩] false).1 "convex/a".data = none :=
  ⟨copy_excludes_convex_subtree.1 "app/a".data "x".data (by decide)
      [("app/a".data, "x".data)] (fsEmpty, statsZero) (by decide),
   copy_excludes_convex_subtree.2.1 "convex/a".data (by decide)
      [("convex/a".data, "x".data)] (fsEmpty, statsZero),
   copy_excludes_convex_subtree.2.2 [("convex/a".data, "x".data)]
      [⟨ActionT.write, "b".data, "y".data⟩] "convex/a".data (by decide) (by decide)⟩
